import Mathlib

/-!
Verification of the rate-limiter core of `ngx_http_rate_limiter`:
a shallow embedding of the counter-storage backends (in-memory map,
SQLite table, Redis, Memcached) and the admission decision engine
(`RateLimiter::is_rate_limited` in `src/lib.rs`), with theorems about
the storage contract and the fixed-window admission algorithm.

Conventions of the embedding:
* Time is an explicit `now : Nat` parameter (the Rust code reads the
  system clock as whole seconds inside each operation).
* Counts are `Nat` (`u32` in the source; the claims never reach the
  overflow range, and debug builds of the source panic on overflow
  rather than wrap).
* A storage state is a finite map embedded as `String → Option RateLimit`
  (the `HashMap<String, RateLimit>` of `storage/memory.rs`, or the
  `rate_limits` table keyed by `key_name` for SQLite).
* Fallible paths are `Except StorageError`; operations whose only error
  source is the backend handle (the poisoned mutex, the SQL connection)
  are split into a pure state transformer plus an `Except` wrapper that
  propagates the handle's error.
-/

/-- The error enum of `src/storage/mod.rs`. -/
inductive StorageError where
  | ConnectionError : String → StorageError
  | KeyNotFound : String → StorageError
  | InvalidValueType : String → StorageError
  | DatabaseError : String → StorageError
deriving DecidableEq

/-- One counter: `struct RateLimit { count: u32, expire_at: u64 }` in
`src/storage/memory.rs` (also one row of the SQLite `rate_limits` table). -/
structure RateLimit where
  count : Nat
  expire_at : Nat
deriving DecidableEq

/-- A storage state: the key-indexed map of counters. -/
def Store : Type := String → Option RateLimit

/-- `MemoryStorage::get` (`src/storage/memory.rs` lines 34-45): return the
stored count when the entry exists and `expire_at > current_time`,
otherwise 0. -/
def MemoryStorage.get (s : Store) (now : Nat) (key : String) : Nat :=
  match s key with
  | some rl => if rl.expire_at > now then rl.count else 0
  | none => 0

/-- `MemoryStorage::increment` (`src/storage/memory.rs` lines 47-66):
with `expire_at := current_time + expire`, a live entry
(`rl.expire_at > current_time`) gets `count + 1` and the fresh
`expire_at`; any other case (absent or expired) is overwritten by
`RateLimit { count: 1, expire_at }`. -/
def MemoryStorage.increment (s : Store) (now : Nat) (key : String) (expire : Nat) : Store :=
  let expire_at := now + expire
  fun k =>
    if k = key then
      match s key with
      | some rl =>
          if rl.expire_at > now then some ⟨rl.count + 1, expire_at⟩
          else some ⟨1, expire_at⟩
      | none => some ⟨1, expire_at⟩
    else s k

/-- `MemoryStorage::delete` (`src/storage/memory.rs` lines 68-72):
`store.remove(key)`. -/
def MemoryStorage.delete (s : Store) (key : String) : Store :=
  fun k => if k = key then none else s k

/-- `MemoryStorage::cleanup_expired` (`src/storage/memory.rs` lines 74-79):
`store.retain(|_, rl| rl.expire_at > current_time)`. -/
def MemoryStorage.cleanup_expired (s : Store) (now : Nat) : Store :=
  fun k =>
    match s k with
    | some rl => if rl.expire_at > now then some rl else none
    | none => none

/-- The fallible face of `MemoryStorage::get`: the only error source is
`self.store.lock()`; once the map is obtained every path ends in `Ok`
(`Ok(rate_limit.count)` or the final `Ok(0)`). -/
def MemoryStorage.get_result (lock : Except StorageError Store) (now : Nat)
    (key : String) : Except StorageError Nat :=
  match lock with
  | Except.error e => Except.error e
  | Except.ok store => Except.ok (MemoryStorage.get store now key)

/-- The fallible face of `MemoryStorage::delete`: errors only from the lock,
then `store.remove(key); Ok(())`. -/
def MemoryStorage.delete_result (lock : Except StorageError Store)
    (key : String) : Except StorageError Store :=
  match lock with
  | Except.error e => Except.error e
  | Except.ok store => Except.ok (MemoryStorage.delete store key)

/-- The `SELECT count FROM rate_limits WHERE key_name = ? AND expire_at > ?`
query of `SQLiteStorage::get` (`src/storage/sqlite.rs` lines 62-69), as an
`Option Nat`: `some` exactly when a live row matches. -/
def SQLiteStorage.query_live_count (s : Store) (now : Nat) (key : String) : Option Nat :=
  match s key with
  | some row => if row.expire_at > now then some row.count else none
  | none => none

/-- `SQLiteStorage::get` (`src/storage/sqlite.rs` lines 59-72): the query
result with `unwrap_or(0)`. -/
def SQLiteStorage.get (s : Store) (now : Nat) (key : String) : Nat :=
  (SQLiteStorage.query_live_count s now key).getD 0

/-- `SQLiteStorage::increment` (`src/storage/sqlite.rs` lines 74-99): the
transactional upsert — `INSERT ... VALUES (key, 1, expire_at)` when the key
is absent; `ON CONFLICT` set `count = CASE WHEN expire_at > now THEN
count + 1 ELSE 1 END` and unconditionally `expire_at = now + expire`. -/
def SQLiteStorage.increment (s : Store) (now : Nat) (key : String) (expire : Nat) : Store :=
  let expire_at := now + expire
  fun k =>
    if k = key then
      match s key with
      | none => some ⟨1, expire_at⟩
      | some row => some ⟨if row.expire_at > now then row.count + 1 else 1, expire_at⟩
    else s k

/-- `SQLiteStorage::delete` (`src/storage/sqlite.rs` lines 101-110):
`DELETE FROM rate_limits WHERE key_name = ?`. -/
def SQLiteStorage.delete (s : Store) (key : String) : Store :=
  fun k => if k = key then none else s k

/-- `SQLiteStorage::cleanup_expired` (`src/storage/sqlite.rs` lines 112-123):
`DELETE FROM rate_limits WHERE expire_at <= ?`. -/
def SQLiteStorage.cleanup_expired (s : Store) (now : Nat) : Store :=
  fun k =>
    match s k with
    | some row => if row.expire_at ≤ now then none else some row
    | none => none

/-- `RedisStorage::cleanup_expired` (`src/storage/redis.rs` lines 64-68):
the body is only `Ok(())` — Redis expires keys natively, so the state
(whatever it is) is untouched and no error can arise. -/
def RedisStorage.cleanup_expired {σ : Type} (s : σ) : Except StorageError σ :=
  Except.ok s

/-- `MemcachedStorage::cleanup_expired` (`src/storage/memcached.rs` lines
58-62): likewise only `Ok(())`. -/
def MemcachedStorage.cleanup_expired {σ : Type} (s : σ) : Except StorageError σ :=
  Except.ok s

/-- The slice of the `StorageBackend` trait that `RateLimiter::is_rate_limited`
consumes (`src/lib.rs` calls only `get` and `increment`), over an abstract
state type: both operations may fail with a `StorageError`. -/
structure StorageOps (σ : Type) where
  get : σ → Nat → String → Except StorageError Nat
  increment : σ → Nat → String → Nat → Except StorageError σ

/-- `RateLimiter::is_rate_limited` (`src/lib.rs` lines 42-52):
`current_count = storage.get(key).unwrap_or(0)`; if
`current_count >= requests_per_second` return `true` (rate limited, no
store call); else `storage.increment(key, window_size).unwrap_or(())` and
return `false`. The returned pair carries the store state after the call. -/
def RateLimiter.is_rate_limited {σ : Type} (ops : StorageOps σ)
    (requests_per_second window_size : Nat) (s : σ) (now : Nat) (key : String) :
    Bool × σ :=
  let current_count :=
    match ops.get s now key with
    | Except.ok c => c
    | Except.error _ => 0
  if current_count ≥ requests_per_second then
    (true, s)
  else
    match ops.increment s now key window_size with
    | Except.ok s2 => (false, s2)
    | Except.error _ => (false, s)

/-- The in-memory backend's `StorageOps`: the pure transformers wrapped in
`Except.ok` (on this backend the operations themselves never fail; the
only fallible step is the lock, treated by `MemoryStorage.get_result`). -/
def memoryOps : StorageOps Store :=
  ⟨fun s now key => Except.ok (MemoryStorage.get s now key),
   fun s now key expire => Except.ok (MemoryStorage.increment s now key expire)⟩

/-- The backend selected by `RateLimiter::new`'s `match backend_type`. -/
inductive BackendKind where
  | memcached
  | redis
  | mysql
  | postgresql
deriving DecidableEq

/-- The dispatch of `RateLimiter::new` (`src/lib.rs` lines 27-33): the four
recognized strings, and the wildcard arm defaulting to Redis. -/
def selectBackend (backend_type : String) : BackendKind :=
  match backend_type with
  | "memcached" => BackendKind.memcached
  | "redis" => BackendKind.redis
  | "mysql" => BackendKind.mysql
  | "postgresql" => BackendKind.postgresql
  | _ => BackendKind.redis

/-- The configuration a constructed `RateLimiter` holds (`src/lib.rs`
lines 18-23), with the chosen backend kind. -/
structure RateLimiter where
  backend : BackendKind
  requests_per_second : Nat
  window_size : Nat

/-- `RateLimiter::new` (`src/lib.rs` lines 26-40): total — every string
yields a limiter, unrecognized ones via the wildcard arm. -/
def RateLimiter.new (backend_type : String) (requests_per_second window_size : Nat) :
    RateLimiter :=
  ⟨selectBackend backend_type, requests_per_second, window_size⟩

/-- `n` admission calls on one key, all at time `now` (the repeated-call
scenario of the deny-at-quota property): the list of `is_rate_limited`
verdicts in order, and the final store. -/
def admitRepeat (limit w : Nat) (key : String) (now : Nat) : Nat → Store → List Bool × Store
  | 0, s => ([], s)
  | n + 1, s =>
      let r := RateLimiter.is_rate_limited memoryOps limit w s now key
      let rest := admitRepeat limit w key now n r.2
      (r.1 :: rest.1, rest.2)

/-- One admission call per element of `ts` (the call times, in order),
on one key against the in-memory backend. -/
def admitTimes (limit w : Nat) (key : String) : List Nat → Store → List Bool × Store
  | [], s => ([], s)
  | t :: ts, s =>
      let r := RateLimiter.is_rate_limited memoryOps limit w s t key
      let rest := admitTimes limit w key ts r.2
      (r.1 :: rest.1, rest.2)

/-- Sequential `increment` calls on one key at the times in `ts`. -/
def incrementSeq (key : String) (w : Nat) : List Nat → Store → Store
  | [], s => s
  | t :: ts, s => incrementSeq key w ts (MemoryStorage.increment s t key w)

/-- Each time in the list falls strictly before the previous time plus the
window — i.e. each call happens while the counter armed by the previous
call is still live. -/
def withinWindow (w : Nat) : List Nat → Bool
  | [] => true
  | [_] => true
  | t :: t2 :: ts => decide (t2 < t + w) && withinWindow w (t2 :: ts)

/-- The times are non-decreasing (the physical clock does not run backwards
between calls). -/
def nondecreasing : List Nat → Bool
  | [] => true
  | [_] => true
  | t :: t2 :: ts => decide (t ≤ t2) && nondecreasing (t2 :: ts)

/-- The last time of the list, with default `d` for the empty list. -/
def lastTimeD (d : Nat) : List Nat → Nat
  | [] => d
  | t :: ts => lastTimeD t ts

/-! ## Helper lemmas about the in-memory backend -/

theorem MemoryStorage.increment_live_entry (s : Store) (now : Nat) (key : String)
    (w c e : Nat) (hs : s key = some ⟨c, e⟩) (hlive : now < e) :
    MemoryStorage.increment s now key w key = some ⟨c + 1, now + w⟩ := by
  simp [MemoryStorage.increment, hs, hlive]

theorem MemoryStorage.increment_reset_entry (s : Store) (now : Nat) (key : String)
    (w : Nat) (h : ∀ rl, s key = some rl → rl.expire_at ≤ now) :
    MemoryStorage.increment s now key w key = some ⟨1, now + w⟩ := by
  cases hs : s key with
  | none => simp [MemoryStorage.increment, hs]
  | some rl =>
      have hle := h rl hs
      simp [MemoryStorage.increment, hs, Nat.not_lt.mpr hle]

theorem MemoryStorage.increment_frame (s : Store) (now : Nat) (key : String)
    (w : Nat) (k : String) (hk : k ≠ key) :
    MemoryStorage.increment s now key w k = s k := by
  simp [MemoryStorage.increment, hk]

theorem MemoryStorage.get_of_entry_live (s : Store) (now : Nat) (key : String)
    (c e : Nat) (hs : s key = some ⟨c, e⟩) (hlive : now < e) :
    MemoryStorage.get s now key = c := by
  simp [MemoryStorage.get, hs, hlive]

theorem MemoryStorage.get_of_expired (s : Store) (now : Nat) (key : String)
    (h : ∀ rl, s key = some rl → rl.expire_at ≤ now) :
    MemoryStorage.get s now key = 0 := by
  cases hs : s key with
  | none => simp [MemoryStorage.get, hs]
  | some rl =>
      have hle := h rl hs
      simp [MemoryStorage.get, hs, Nat.not_lt.mpr hle]

theorem MemoryStorage.get_increment_self (s : Store) (now : Nat) (key : String)
    (w : Nat) (hw : 0 < w) :
    MemoryStorage.get (MemoryStorage.increment s now key w) now key =
      MemoryStorage.get s now key + 1 := by
  have hlive : now < now + w := Nat.lt_add_of_pos_right hw
  cases hs : s key with
  | none =>
      have hentry := MemoryStorage.increment_reset_entry s now key w
        (by intro rl h; rw [hs] at h; cases h)
      simp [MemoryStorage.get, hentry, hs, hlive]
  | some rl =>
      by_cases hex : now < rl.expire_at
      · have hentry := MemoryStorage.increment_live_entry s now key w rl.count rl.expire_at
          (by rw [hs]) hex
        simp [MemoryStorage.get, hentry, hs, hex, hlive]
      · have hle : rl.expire_at ≤ now := Nat.not_lt.mp hex
        have hentry := MemoryStorage.increment_reset_entry s now key w
          (by intro rl2 h2; rw [hs] at h2; cases h2; exact hle)
        simp [MemoryStorage.get, hentry, hs, hex, hlive]

/-! ## Helper lemmas about the admission engine on the in-memory backend -/

theorem memory_admit_deny (limit w : Nat) (s : Store) (now : Nat) (key : String)
    (h : limit ≤ MemoryStorage.get s now key) :
    RateLimiter.is_rate_limited memoryOps limit w s now key = (true, s) := by
  simp [RateLimiter.is_rate_limited, memoryOps, h]

theorem memory_admit_allow (limit w : Nat) (s : Store) (now : Nat) (key : String)
    (h : MemoryStorage.get s now key < limit) :
    RateLimiter.is_rate_limited memoryOps limit w s now key =
      (false, MemoryStorage.increment s now key w) := by
  simp [RateLimiter.is_rate_limited, memoryOps, Nat.not_le.mpr h]

theorem admitRepeat_all_allow (limit w : Nat) (key : String) (now : Nat) (hw : 0 < w) :
    ∀ (n : Nat) (s : Store), MemoryStorage.get s now key + n ≤ limit →
      (admitRepeat limit w key now n s).1 = List.replicate n false ∧
      MemoryStorage.get (admitRepeat limit w key now n s).2 now key =
        MemoryStorage.get s now key + n := by
  intro n
  induction n with
  | zero => intro s _; simp [admitRepeat]
  | succ n ih =>
      intro s h
      have hc : MemoryStorage.get s now key < limit := by omega
      have hget := MemoryStorage.get_increment_self s now key w hw
      have hrec := ih (MemoryStorage.increment s now key w) (by omega)
      simp only [admitRepeat, memory_admit_allow limit w s now key hc]
      refine ⟨by simp [hrec.1, List.replicate_succ], ?_⟩
      rw [hrec.2, hget]
      omega

theorem admitRepeat_succ_last (limit w : Nat) (key : String) (now : Nat) :
    ∀ (n : Nat) (s : Store),
      admitRepeat limit w key now (n + 1) s =
        ((admitRepeat limit w key now n s).1 ++
           [(RateLimiter.is_rate_limited memoryOps limit w
               (admitRepeat limit w key now n s).2 now key).1],
         (RateLimiter.is_rate_limited memoryOps limit w
             (admitRepeat limit w key now n s).2 now key).2) := by
  intro n
  induction n with
  | zero => intro s; simp [admitRepeat]
  | succ n ih =>
      intro s
      conv =>
        lhs
        rw [admitRepeat]
      rw [ih]
      simp [admitRepeat]

theorem withinWindow_cons (w t t2 : Nat) (ts : List Nat)
    (h : withinWindow w (t :: t2 :: ts) = true) :
    t2 < t + w ∧ withinWindow w (t2 :: ts) = true := by
  have h2 := h
  simp [withinWindow] at h2
  exact h2

theorem nondecreasing_cons (t t2 : Nat) (ts : List Nat)
    (h : nondecreasing (t :: t2 :: ts) = true) :
    t ≤ t2 ∧ nondecreasing (t2 :: ts) = true := by
  have h2 := h
  simp [nondecreasing] at h2
  exact h2

theorem incrementSeq_live (key : String) (w : Nat) :
    ∀ (ts : List Nat) (t c : Nat) (s : Store),
      s key = some ⟨c, t + w⟩ →
      withinWindow w (t :: ts) = true →
      incrementSeq key w ts s key = some ⟨c + ts.length, lastTimeD t ts + w⟩ := by
  intro ts
  induction ts with
  | nil =>
      intro t c s hs _
      simpa [incrementSeq, lastTimeD] using hs
  | cons t2 ts ih =>
      intro t c s hs hchain
      obtain ⟨h1, h2⟩ := withinWindow_cons w t t2 ts hchain
      have hentry := MemoryStorage.increment_live_entry s t2 key w c (t + w) hs h1
      have hrec := ih t2 (c + 1) (MemoryStorage.increment s t2 key w) hentry h2
      simp only [incrementSeq, lastTimeD, List.length_cons]
      rw [hrec]
      congr 2
      omega

theorem admitTimes_zero_window (limit : Nat) (key : String) (hl : 0 < limit) :
    ∀ (ts : List Nat) (t0 : Nat) (s : Store),
      nondecreasing (t0 :: ts) = true →
      (s key = none ∨ ∃ e : Nat, e ≤ t0 ∧ s key = some ⟨1, e⟩) →
      (admitTimes limit 0 key ts s).1 = List.replicate ts.length false ∧
      ((admitTimes limit 0 key ts s).2 key = none ∨
        ∃ e : Nat, e ≤ lastTimeD t0 ts ∧ (admitTimes limit 0 key ts s).2 key = some ⟨1, e⟩) := by
  intro ts
  induction ts with
  | nil =>
      intro t0 s _ hinv
      simpa [admitTimes, lastTimeD] using hinv
  | cons t ts ih =>
      intro t0 s hmono hinv
      obtain ⟨hle, hmono2⟩ := nondecreasing_cons t0 t ts hmono
      have hexp : ∀ rl, s key = some rl → rl.expire_at ≤ t := by
        intro rl hrl
        rcases hinv with hnone | ⟨e, he, hsome⟩
        · rw [hnone] at hrl; cases hrl
        · rw [hsome] at hrl
          cases hrl
          exact le_trans he hle
      have hget : MemoryStorage.get s t key = 0 := MemoryStorage.get_of_expired s t key hexp
      have hallow := memory_admit_allow limit 0 s t key (by omega)
      have hentry := MemoryStorage.increment_reset_entry s t key 0 hexp
      have hrec := ih t (MemoryStorage.increment s t key 0)
        hmono2 (Or.inr ⟨t, le_refl t, by simpa using hentry⟩)
      simp only [admitTimes, hallow, List.length_cons]
      exact ⟨by simp [hrec.1, List.replicate_succ], by simpa [lastTimeD] using hrec.2⟩

/-! ## Claim theorems -/

/-- C1: `is_rate_limited` reads the count and denies at or over the limit
without touching the store, otherwise increments exactly once and allows;
hence on a fresh key the first `limit` calls allow and call `limit + 1`
denies, leaving the stored count at `limit` (the denied call mutates
nothing). -/
theorem admission_engine_deny_at_quota (limit w now : Nat) (key : String) (s : Store)
    (hfresh : s key = none) (hw : 0 < w) :
    (∀ s2 : Store, limit ≤ MemoryStorage.get s2 now key →
        RateLimiter.is_rate_limited memoryOps limit w s2 now key = (true, s2)) ∧
    (∀ s2 : Store, MemoryStorage.get s2 now key < limit →
        RateLimiter.is_rate_limited memoryOps limit w s2 now key =
          (false, MemoryStorage.increment s2 now key w)) ∧
    (admitRepeat limit w key now (limit + 1) s).1 =
        List.replicate limit false ++ [true] ∧
    (admitRepeat limit w key now (limit + 1) s).2 =
        (admitRepeat limit w key now limit s).2 ∧
    MemoryStorage.get (admitRepeat limit w key now (limit + 1) s).2 now key = limit := by
  have hget0 : MemoryStorage.get s now key = 0 := by
    simp [MemoryStorage.get, hfresh]
  have hall := admitRepeat_all_allow limit w key now hw limit s (by omega)
  have hfin : MemoryStorage.get (admitRepeat limit w key now limit s).2 now key = limit := by
    rw [hall.2, hget0]; omega
  have hdeny := memory_admit_deny limit w (admitRepeat limit w key now limit s).2 now key
    (le_of_eq hfin.symm)
  have hsucc := admitRepeat_succ_last limit w key now limit s
  refine ⟨fun s2 h2 => memory_admit_deny limit w s2 now key h2,
          fun s2 h2 => memory_admit_allow limit w s2 now key h2, ?_, ?_, ?_⟩
  · rw [hsucc]; simp [hall.1, hdeny]
  · rw [hsucc]; simp [hdeny]
  · rw [hsucc]; simp [hdeny, hfin]

/-- Witness for C1: limit 2, window 60, time 5, a fresh key — the verdicts
are Allow, Allow, Deny. -/
theorem admission_engine_deny_at_quota_witness :
    (((fun _ => none) : Store) "a" = none ∧ 0 < 60) ∧
    (admitRepeat 2 60 "a" 5 3 (fun _ => none)).1 = List.replicate 2 false ++ [true] :=
  ⟨⟨rfl, by decide⟩,
   (admission_engine_deny_at_quota 2 60 5 "a" (fun _ => none) rfl (by decide)).2.2.1⟩

/-- C2: `increment` resets an absent or expired counter to count 1 with a
fresh `expire_at = now + w`, never accumulating across an expired window,
and bumps a live counter by exactly 1 while re-arming the expiry —
identically in the in-memory backend and the SQLite upsert; other keys are
untouched. -/
theorem increment_reset_or_bump (s : Store) (now : Nat) (key : String) (w : Nat) :
    (s key = none →
        MemoryStorage.increment s now key w key = some ⟨1, now + w⟩ ∧
        SQLiteStorage.increment s now key w key = some ⟨1, now + w⟩) ∧
    (∀ rl, s key = some rl → rl.expire_at ≤ now →
        MemoryStorage.increment s now key w key = some ⟨1, now + w⟩ ∧
        SQLiteStorage.increment s now key w key = some ⟨1, now + w⟩) ∧
    (∀ rl, s key = some rl → now < rl.expire_at →
        MemoryStorage.increment s now key w key = some ⟨rl.count + 1, now + w⟩ ∧
        SQLiteStorage.increment s now key w key = some ⟨rl.count + 1, now + w⟩) ∧
    (∀ k, k ≠ key →
        MemoryStorage.increment s now key w k = s k ∧
        SQLiteStorage.increment s now key w k = s k) := by
  refine ⟨?_, ?_, ?_, ?_⟩
  · intro h
    constructor <;> simp [MemoryStorage.increment, SQLiteStorage.increment, h]
  · intro rl h hle
    constructor <;>
      simp [MemoryStorage.increment, SQLiteStorage.increment, h, Nat.not_lt.mpr hle]
  · intro rl h hlt
    constructor <;> simp [MemoryStorage.increment, SQLiteStorage.increment, h, hlt]
  · intro k hk
    constructor <;> simp [MemoryStorage.increment, SQLiteStorage.increment, hk]

/-- C3: `get` returns the stored count exactly when the entry is live
(`expire_at > now`), returns 0 on an absent or expired key (never a stale
positive count), and the fallible wrapper errors only when the backend
handle itself fails — a missing key yields `Ok 0`, never `KeyNotFound`. -/
theorem get_live_count_or_zero (s : Store) (now : Nat) (key : String) :
    (∀ rl, s key = some rl → now < rl.expire_at →
        MemoryStorage.get s now key = rl.count ∧
        SQLiteStorage.get s now key = rl.count) ∧
    (s key = none →
        MemoryStorage.get s now key = 0 ∧ SQLiteStorage.get s now key = 0) ∧
    (∀ rl, s key = some rl → rl.expire_at ≤ now →
        MemoryStorage.get s now key = 0 ∧ SQLiteStorage.get s now key = 0) ∧
    (MemoryStorage.get_result (Except.ok s) now key =
        Except.ok (MemoryStorage.get s now key)) ∧
    (∀ e, MemoryStorage.get_result (Except.error e) now key = Except.error e) := by
  refine ⟨?_, ?_, ?_, rfl, fun e => rfl⟩
  · intro rl h hlt
    constructor <;>
      simp [MemoryStorage.get, SQLiteStorage.get, SQLiteStorage.query_live_count, h, hlt]
  · intro h
    constructor <;>
      simp [MemoryStorage.get, SQLiteStorage.get, SQLiteStorage.query_live_count, h]
  · intro rl h hle
    constructor <;>
      simp [MemoryStorage.get, SQLiteStorage.get, SQLiteStorage.query_live_count, h,
        Nat.not_lt.mpr hle]

/-- C5: the engine is fail-open — a failed `get` counts as 0 so the verdict
is Allow whenever the limit is positive; a failed `increment` after an
under-quota read is absorbed and the verdict is still Allow; at or over
quota the verdict is Deny with no store call. The verdict is always a plain
boolean: no storage error reaches the host. -/
theorem engine_fail_open (limit w now : Nat) (key : String) :
    (∀ (σ : Type) (ops : StorageOps σ) (s : σ) (e : StorageError),
        ops.get s now key = Except.error e → 0 < limit →
        (RateLimiter.is_rate_limited ops limit w s now key).1 = false) ∧
    (∀ (σ : Type) (ops : StorageOps σ) (s : σ) (c : Nat) (e : StorageError),
        ops.get s now key = Except.ok c → c < limit →
        ops.increment s now key w = Except.error e →
        RateLimiter.is_rate_limited ops limit w s now key = (false, s)) ∧
    (∀ (σ : Type) (ops : StorageOps σ) (s : σ) (c : Nat),
        ops.get s now key = Except.ok c → limit ≤ c →
        RateLimiter.is_rate_limited ops limit w s now key = (true, s)) := by
  refine ⟨?_, ?_, ?_⟩
  · intro σ ops s e hg hl
    simp only [RateLimiter.is_rate_limited, hg]
    rw [if_neg (by omega)]
    cases ops.increment s now key w <;> simp
  · intro σ ops s c e hg hc hi
    simp [RateLimiter.is_rate_limited, hg, hi, Nat.not_le.mpr hc]
  · intro σ ops s c hg hc
    simp [RateLimiter.is_rate_limited, hg, ge_iff_le, hc]

/-- C6: from an absent key, N sequential increments, each performed while
the counter armed by the previous call is still live, leave the entry at
count N with expiry `last + w`, and `get` before that expiry returns N. -/
theorem sequential_increments_yield_count (key : String) (w t : Nat) (ts : List Nat)
    (s : Store) (hfresh : s key = none) (hchain : withinWindow w (t :: ts) = true) :
    incrementSeq key w (t :: ts) s key =
      some ⟨(t :: ts).length, lastTimeD t ts + w⟩ ∧
    ∀ q : Nat, q < lastTimeD t ts + w →
      MemoryStorage.get (incrementSeq key w (t :: ts) s) q key = (t :: ts).length := by
  have hentry1 := MemoryStorage.increment_reset_entry s t key w
    (by intro rl h; rw [hfresh] at h; cases h)
  have hmain := incrementSeq_live key w ts t 1 (MemoryStorage.increment s t key w)
    hentry1 hchain
  have hentry : incrementSeq key w (t :: ts) s key =
      some ⟨(t :: ts).length, lastTimeD t ts + w⟩ := by
    show incrementSeq key w ts (MemoryStorage.increment s t key w) key = _
    rw [hmain]
    congr 2
    simp [List.length_cons]
    omega
  refine ⟨hentry, fun q hq => ?_⟩
  exact MemoryStorage.get_of_entry_live _ q key _ _ hentry hq

/-- Witness for C6: two increments at times 5 and 7 with window 10 on a
fresh key; `get` at time 8 returns 2. -/
theorem sequential_increments_yield_count_witness :
    (((fun _ => none) : Store) "k" = none ∧ withinWindow 10 [5, 7] = true) ∧
    MemoryStorage.get (incrementSeq "k" 10 [5, 7] (fun _ => none)) 8 "k" = 2 :=
  ⟨⟨rfl, by decide⟩,
   (sequential_increments_yield_count "k" 10 5 [7] (fun _ => none) rfl (by decide)).2
     8 (by decide)⟩

/-- C7: `cleanup_expired` removes exactly the entries with
`expire_at <= now` and keeps every live entry with count and expiry
unchanged, in both the in-memory backend and the SQLite bulk delete; for
the native-TTL Redis and Memcached backends it is an error-free no-op
that removes nothing. -/
theorem cleanup_removes_exactly_expired (s : Store) (now : Nat) :
    (∀ k rl, s k = some rl → rl.expire_at ≤ now →
        MemoryStorage.cleanup_expired s now k = none ∧
        SQLiteStorage.cleanup_expired s now k = none) ∧
    (∀ k rl, s k = some rl → now < rl.expire_at →
        MemoryStorage.cleanup_expired s now k = some rl ∧
        SQLiteStorage.cleanup_expired s now k = some rl) ∧
    (∀ k, s k = none →
        MemoryStorage.cleanup_expired s now k = none ∧
        SQLiteStorage.cleanup_expired s now k = none) ∧
    (∀ (σ : Type) (st : σ),
        RedisStorage.cleanup_expired st = Except.ok st ∧
        MemcachedStorage.cleanup_expired st = Except.ok st) := by
  refine ⟨?_, ?_, ?_, fun σ st => ⟨rfl, rfl⟩⟩
  · intro k rl h hle
    constructor <;>
      simp [MemoryStorage.cleanup_expired, SQLiteStorage.cleanup_expired, h, hle,
        Nat.not_lt.mpr hle]
  · intro k rl h hlt
    constructor <;>
      simp [MemoryStorage.cleanup_expired, SQLiteStorage.cleanup_expired, h, hlt,
        Nat.not_le.mpr hlt]
  · intro k h
    constructor <;> simp [MemoryStorage.cleanup_expired, SQLiteStorage.cleanup_expired, h]

/-- C8: `delete` clears the key (`get` returns 0 at every time afterward),
is idempotent as a state transformer, leaves other keys untouched, and its
fallible wrapper succeeds whenever the backend handle is healthy — also on
an absent key. -/
theorem delete_idempotent_and_clears (s : Store) (key : String) :
    (∀ now : Nat,
        MemoryStorage.get (MemoryStorage.delete s key) now key = 0 ∧
        SQLiteStorage.get (SQLiteStorage.delete s key) now key = 0) ∧
    MemoryStorage.delete (MemoryStorage.delete s key) key = MemoryStorage.delete s key ∧
    SQLiteStorage.delete (SQLiteStorage.delete s key) key = SQLiteStorage.delete s key ∧
    (∀ k, k ≠ key →
        MemoryStorage.delete s key k = s k ∧ SQLiteStorage.delete s key k = s k) ∧
    MemoryStorage.delete_result (Except.ok s) key =
      Except.ok (MemoryStorage.delete s key) := by
  refine ⟨?_, ?_, ?_, ?_, rfl⟩
  · intro now
    constructor <;>
      simp [MemoryStorage.get, SQLiteStorage.get, SQLiteStorage.query_live_count,
        MemoryStorage.delete, SQLiteStorage.delete]
  · funext k
    by_cases hk : k = key <;> simp [MemoryStorage.delete, hk]
  · funext k
    by_cases hk : k = key <;> simp [SQLiteStorage.delete, hk]
  · intro k hk
    constructor <;> simp [MemoryStorage.delete, SQLiteStorage.delete, hk]

/-- C9: every backend string outside the four recognized ones falls through
the wildcard arm of `RateLimiter::new` and silently yields a limiter backed
by the default Redis store, with the requested quota parameters —
construction is total and never fails. -/
theorem unrecognized_backend_defaults_to_redis (bt : String) (rps ws : Nat)
    (h1 : bt ≠ "memcached") (h2 : bt ≠ "redis") (h3 : bt ≠ "mysql")
    (h4 : bt ≠ "postgresql") :
    (RateLimiter.new bt rps ws).backend = BackendKind.redis ∧
    (RateLimiter.new bt rps ws).requests_per_second = rps ∧
    (RateLimiter.new bt rps ws).window_size = ws := by
  refine ⟨?_, rfl, rfl⟩
  show selectBackend bt = BackendKind.redis
  unfold selectBackend
  split <;> simp_all

/-- Witness for C9: the string "sqlite" is not recognized and yields the
Redis default. -/
theorem unrecognized_backend_defaults_to_redis_witness :
    ("sqlite" ≠ "memcached" ∧ "sqlite" ≠ "redis" ∧ "sqlite" ≠ "mysql" ∧
      "sqlite" ≠ "postgresql") ∧
    (RateLimiter.new "sqlite" 100 60).backend = BackendKind.redis :=
  ⟨⟨by decide, by decide, by decide, by decide⟩,
   (unrecognized_backend_defaults_to_redis "sqlite" 100 60 (by decide) (by decide)
     (by decide) (by decide)).1⟩

/-- C10: liveness is strict — an entry with `expire_at = now` is already
expired for `get`, `increment` and `cleanup_expired`; `increment` with
window 0 stores `expire_at = now` and the entry is immediately invisible to
`get`; under window 0 (non-decreasing call times, positive limit) the
stored count never exceeds 1 and the engine allows every request. -/
theorem zero_window_disables_limiting (key : String) (now w limit : Nat) (s : Store) :
    (∀ rl, s key = some rl → rl.expire_at = now →
        MemoryStorage.get s now key = 0 ∧
        MemoryStorage.increment s now key w key = some ⟨1, now + w⟩ ∧
        MemoryStorage.cleanup_expired s now key = none) ∧
    ((∀ rl, s key = some rl → rl.expire_at ≤ now) →
        MemoryStorage.increment s now key 0 key = some ⟨1, now⟩ ∧
        ∀ q, now ≤ q →
          MemoryStorage.get (MemoryStorage.increment s now key 0) q key = 0) ∧
    (∀ (ts : List Nat) (t0 : Nat), s key = none → 0 < limit →
        nondecreasing (t0 :: ts) = true →
        (admitTimes limit 0 key ts s).1 = List.replicate ts.length false ∧
        ∀ rl, (admitTimes limit 0 key ts s).2 key = some rl → rl.count ≤ 1) := by
  refine ⟨?_, ?_, ?_⟩
  · intro rl h heq
    have hexp : ∀ rl2, s key = some rl2 → rl2.expire_at ≤ now := by
      intro rl2 h2; rw [h] at h2; cases h2; exact le_of_eq heq
    exact ⟨MemoryStorage.get_of_expired s now key hexp,
      MemoryStorage.increment_reset_entry s now key w hexp,
      by simp [MemoryStorage.cleanup_expired, h, heq]⟩
  · intro hexp
    have hentry := MemoryStorage.increment_reset_entry s now key 0 hexp
    rw [Nat.add_zero] at hentry
    refine ⟨hentry, fun q hq => ?_⟩
    apply MemoryStorage.get_of_expired
    intro rl2 h2
    rw [hentry] at h2
    cases h2
    exact hq
  · intro ts t0 hfresh hl hmono
    have hrec := admitTimes_zero_window limit key hl ts t0 s hmono (Or.inl hfresh)
    refine ⟨hrec.1, fun rl hrl => ?_⟩
    rcases hrec.2 with hnone | ⟨e, _, hsome⟩
    · rw [hnone] at hrl; cases hrl
    · rw [hsome] at hrl; cases hrl; exact le_refl 1
